import Mathlib

/-!
Shallow embedding of the scoring/aggregation core of the prediction-league
application (`data_manager.py`, `config.py`).  The remote GitHub document
store is modelled as an explicit `Store` value holding the decoded content
of the documents the engine reads; network transport, encryption and the
Streamlit UI are outside the modelled core.  Python exceptions that can
escape the scoring pipeline are modelled by `Option` (`none` = an uncaught
exception), since `calculate_user_scores` has no handler around its scoring
loop.
-/

/-- Point values from `config.py`: `POINTS_EXACT_SCORE = 2`. -/
def POINTS_EXACT_SCORE : Int := 2

/-- Point values from `config.py`: `POINTS_CORRECT_RESULT = 1`. -/
def POINTS_CORRECT_RESULT : Int := 1

/-- Point values from `config.py`: `POINTS_GOAL_DIFFERENCE = 0`. -/
def POINTS_GOAL_DIFFERENCE : Int := 0

/-- One raw score cell of a results row, as it reaches `calculate_points`
(after pandas CSV parsing).  `num n` is a value that `int(float(x))`
converts to the integer `n`; `nan` is a value for which `pd.isna` is true;
`inf` is a float infinity, for which `float(x)` succeeds but `int(...)`
raises `OverflowError` (not caught by the `except (ValueError, TypeError)`
in the source); `bad` is a value for which `float(x)` raises
`ValueError`/`TypeError` (caught, giving 0 points). -/
inductive RawScore where
  | num (n : Int)
  | nan
  | inf
  | bad
deriving DecidableEq, Repr

/-- One row of a week's results table (`home_score`/`away_score` columns);
`none` fields model absent keys. -/
structure ResultRow where
  home_score : Option RawScore
  away_score : Option RawScore
deriving DecidableEq, Repr

/-- One stored prediction record; the code reads the scores with
`prediction.get('home_score', 0)`, so absent keys (`none`) default to 0. -/
structure Prediction where
  home_score : Option Int
  away_score : Option Int
deriving DecidableEq, Repr

/-- Outcome classification used by `calculate_points`
(`"home"`, `"draw"`, `"away"` strings in the source). -/
inductive Outcome where
  | home
  | draw
  | away
deriving DecidableEq, Repr

/-- The source computes `"draw" if h == a else ("home" if h > a else "away")`. -/
def outcomeOf (h a : Int) : Outcome :=
  if h = a then Outcome.draw else if h > a then Outcome.home else Outcome.away

/-- Shallow embedding of `GitHubDataManager.calculate_points`
(`data_manager.py` lines 233-279).  The result `none` models an uncaught
Python exception: `int(float(home_score))` is evaluated first, then
`int(float(away_score))`; a `bad` value raises `ValueError`/`TypeError`
(caught, returning 0) while `inf` raises `OverflowError`, which the
source's `except (ValueError, TypeError)` does not catch.  `None`/missing
and NaN scores are filtered to 0 before any parsing is attempted. -/
def calculate_points (prediction : Prediction) (actual_result : Option ResultRow) :
    Option Int :=
  match actual_result with
  | none => some 0
  | some r =>
    match r.home_score, r.away_score with
    | none, _ => some 0
    | _, none => some 0
    | some RawScore.nan, some _ => some 0
    | some _, some RawScore.nan => some 0
    | some RawScore.bad, some _ => some 0
    | some RawScore.inf, some _ => none
    | some (RawScore.num _), some RawScore.bad => some 0
    | some (RawScore.num _), some RawScore.inf => none
    | some (RawScore.num actual_home), some (RawScore.num actual_away) =>
      let pred_home := prediction.home_score.getD 0
      let pred_away := prediction.away_score.getD 0
      if pred_home = actual_home ∧ pred_away = actual_away then
        some POINTS_EXACT_SCORE
      else
        some ((if outcomeOf pred_home pred_away = outcomeOf actual_home actual_away
                then POINTS_CORRECT_RESULT else 0)
           + (if pred_home - pred_away = actual_home - actual_away
                then POINTS_GOAL_DIFFERENCE else 0))

/-- One entry of the `manual_adjustments.json` log. -/
structure Adjustment where
  username : String
  points_change : Int
  reason : String
  admin_user : String
  timestamp : String
deriving DecidableEq, Repr

/-- A per-user value of a week's prediction document: either the historical
bare list shape, the current `{"predictions": [...], "submitted_at": ...}`
record shape, or anything else (neither a list nor a dict containing a
`"predictions"` key), which the scoring loop skips with `continue`. -/
inductive PredEntry where
  | plain (predictions : List Prediction)
  | record (predictions : List Prediction) (submitted_at : String)
  | malformed
deriving DecidableEq, Repr

/-- A `users.json` entry (only the field the scoring engine reads). -/
structure UserInfo where
  display_name : String
deriving DecidableEq, Repr

/-- Decoded content of the documents `calculate_user_scores` and its callees
read.  `users` is the `users.json` mapping in insertion order; `results w`
is the week-`w` results table (`none` = document absent or unreadable, as
`load_results` returns `None`); `predictions w` is the decoded week-`w`
prediction document ( `[]` = absent, as `load_predictions` returns `{}`);
`adjustments` is the manual adjustment log. -/
structure Store where
  users : List (String × UserInfo)
  current_week : Nat
  results : Nat → Option (List ResultRow)
  predictions : Nat → List (String × PredEntry)
  adjustments : List Adjustment

/-- The per-user accumulator record built by `calculate_user_scores`.
`weekly_breakdown` keys `week_{w}` are modelled by the week number. -/
structure UserScore where
  display_name : String
  total_points : Int
  weeks_played : Nat
  weekly_breakdown : List (Nat × Int)
  manual_adjustments : Int
deriving DecidableEq, Repr

/-- Initialization loop of `calculate_user_scores`: every user except the
reserved `"admin"` identity starts with zero totals. -/
def initUserScores (users : List (String × UserInfo)) : List (String × UserScore) :=
  (users.filter (fun p => p.1 ≠ "admin")).map
    (fun p => (p.1, { display_name := p.2.display_name, total_points := 0,
                      weeks_played := 0, weekly_breakdown := [],
                      manual_adjustments := 0 }))

/-- Shape dispatch of `calculate_user_scores`: a dict containing a
`"predictions"` key or a bare list yield the prediction list; any other
shape is skipped (`continue`). -/
def userPredsOf : PredEntry → Option (List Prediction)
  | PredEntry.plain ps => some ps
  | PredEntry.record ps _ => some ps
  | PredEntry.malformed => none

/-- Sum of a list of possibly-raising point computations; `none` anywhere
makes the whole sum `none` (the Python loop would raise). -/
def optSum : List (Option Int) → Option Int
  | [] => some 0
  | x :: l => x.bind (fun a => (optSum l).map (fun b => a + b))

/-- The inner match loop of `calculate_user_scores`: for each result row
index `i` with `i < len(user_predictions)` add
`calculate_points(user_predictions[i], result_row)`, i.e. a sum over
`zip user_predictions results`. -/
def weekPoints (user_predictions : List Prediction) (results : List ResultRow) :
    Option Int :=
  optSum ((List.zip user_predictions results).map
    (fun pr => calculate_points pr.1 (some pr.2)))

/-- Per-user step of one iteration of the week loop of
`calculate_user_scores`: skip the week when the results document is absent
or empty or the predictions document is empty; skip the user when absent
from the predictions document or stored in an unrecognized shape; otherwise
add the week's points, bump `weeks_played` and record the breakdown entry. -/
def stepUser (st : Store) (week : Nat) (p : String × UserScore) :
    Option (String × UserScore) :=
  match st.results week with
  | none => some p
  | some results =>
    if results.length = 0 then some p
    else if (st.predictions week).length = 0 then some p
    else
      match List.lookup p.1 (st.predictions week) with
      | none => some p
      | some entry =>
        match userPredsOf entry with
        | none => some p
        | some ups =>
          match weekPoints ups results with
          | none => none
          | some wp =>
            some (p.1, { p.2 with
              total_points := p.2.total_points + wp,
              weeks_played := p.2.weeks_played + 1,
              weekly_breakdown := p.2.weekly_breakdown ++ [(week, wp)] })

/-- Effectful map over the user-score association list (the Python `for
username in user_scores` loop mutating the dict in place); `none` anywhere
aborts the whole computation (an exception propagates). -/
def optMapM (f : α → Option β) : List α → Option (List β)
  | [] => some []
  | a :: l => (f a).bind (fun b => (optMapM f l).map (fun l2 => b :: l2))

/-- One iteration of the week loop of `calculate_user_scores`
(`data_manager.py` lines 479-509). -/
def processWeek (st : Store) (scores : List (String × UserScore)) (week : Nat) :
    Option (List (String × UserScore)) :=
  match st.results week with
  | none => some scores
  | some results =>
    if results.length = 0 then some scores
    else if (st.predictions week).length = 0 then some scores
    else optMapM (stepUser st week) scores

/-- Possibly-raising left fold (the outer `for week in range(1, current_week)`
loop). -/
def optFoldl (f : β → α → Option β) : β → List α → Option β
  | b, [] => some b
  | b, a :: l => (f b a).bind (fun b2 => optFoldl f b2 l)

/-- The weeks scored by `calculate_user_scores`: Python
`range(1, current_week)`, i.e. `1, ..., current_week - 1`. -/
def weekRange (current_week : Nat) : List Nat :=
  List.range' 1 (current_week - 1)

/-- The manual-adjustment fold step of `calculate_user_scores`: an entry
whose username matches a known user adds `points_change` to that user's
`total_points` and `manual_adjustments`; other entries change nothing. -/
def applyAdjustment (scores : List (String × UserScore)) (adj : Adjustment) :
    List (String × UserScore) :=
  scores.map (fun p =>
    if p.1 = adj.username then
      (p.1, { p.2 with
        total_points := p.2.total_points + adj.points_change,
        manual_adjustments := p.2.manual_adjustments + adj.points_change })
    else p)

/-- Shallow embedding of `GitHubDataManager.calculate_user_scores`
(`data_manager.py` lines 460-519): initialize all non-admin users, score
weeks `1 .. current_week - 1`, then fold in the manual adjustment log.
`none` models an exception escaping the scoring loop. -/
def calculate_user_scores (st : Store) : Option (List (String × UserScore)) :=
  match optFoldl (processWeek st) (initUserScores st.users) (weekRange st.current_week) with
  | none => none
  | some scores => some (st.adjustments.foldl applyAdjustment scores)

/-- One entry of the list returned by `get_leaderboard`. -/
structure LBEntry where
  username : String
  display_name : String
  total_points : Int
  weeks_played : Nat
  average_points : ℚ
  current_week_points : Int
  weekly_breakdown : List (Nat × Int)
  manual_adjustments : Int
deriving DecidableEq, Repr

/-- Round-half-to-even on rationals, the rounding rule of Python's built-in
`round` (the embedding treats the float values as exact rationals). -/
def roundHalfEven (q : ℚ) : Int :=
  if q - ⌊q⌋ < 1 / 2 then ⌊q⌋
  else if 1 / 2 < q - ⌊q⌋ then ⌊q⌋ + 1
  else if Even ⌊q⌋ then ⌊q⌋ else ⌊q⌋ + 1

/-- Python `round(x, 2)`: round to the nearest hundredth, halves to even. -/
def round2 (q : ℚ) : ℚ :=
  (roundHalfEven (q * 100) : ℚ) / 100

/-- Construction of one leaderboard entry from a `calculate_user_scores`
entry (`data_manager.py` lines 288-306): `average_points` is
`round(total_points / max(weeks_played, 1), 2)` and `current_week_points`
is the breakdown entry of week `current_week - 1` when `current_week > 1`
(0 when absent), else 0. -/
def mkEntry (current_week : Nat) (p : String × UserScore) : LBEntry :=
  { username := p.1
    display_name := p.2.display_name
    total_points := p.2.total_points
    weeks_played := p.2.weeks_played
    average_points :=
      round2 ((p.2.total_points : ℚ) / ((max p.2.weeks_played 1 : Nat) : ℚ))
    current_week_points :=
      if 1 < current_week then
        (List.lookup (current_week - 1) p.2.weekly_breakdown).getD 0
      else 0
    weekly_breakdown := p.2.weekly_breakdown
    manual_adjustments := p.2.manual_adjustments }

/-- The leaderboard list in `user_scores` iteration order, before sorting. -/
def unsortedLeaderboard (current_week : Nat) (scores : List (String × UserScore)) :
    List LBEntry :=
  scores.map (mkEntry current_week)

/-- Stable descending insertion by `total_points`: the new element goes
after every already-placed element whose total is greater than or equal to
its own. -/
def insertDesc (x : LBEntry) : List LBEntry → List LBEntry
  | [] => [x]
  | h :: t =>
    if h.total_points < x.total_points then x :: h :: t else h :: insertDesc x t

/-- Python `sorted(leaderboard, key=lambda x: x["total_points"], reverse=True)`:
a stable descending sort by `total_points`. -/
def sortDesc (l : List LBEntry) : List LBEntry :=
  l.foldl (fun acc x => insertDesc x acc) []

/-- Shallow embedding of `GitHubDataManager.get_leaderboard`
(`data_manager.py` lines 281-308). -/
def get_leaderboard (st : Store) : Option (List LBEntry) :=
  match calculate_user_scores st with
  | none => none
  | some scores => some (sortDesc (unsortedLeaderboard st.current_week scores))

/-- Shallow embedding of `GitHubDataManager.save_manual_adjustment`
(`data_manager.py` lines 412-443) at the store level: the happy path loads
the log, appends the new entry with no validation of any field, writes the
log back and returns `True`.  Store I/O failures are outside the model. -/
def save_manual_adjustment (st : Store) (username : String) (points_change : Int)
    (reason admin_user timestamp : String) : Store × Bool :=
  ({ st with adjustments :=
      st.adjustments ++ [{ username := username, points_change := points_change,
                           reason := reason, admin_user := admin_user,
                           timestamp := timestamp }] }, true)

/-! ## Specification-side definitions

These follow the wording of the specification invariant ("leaderboard total
for a user = Σ(week points ...) + Σ(manual adjustment deltas)"; "weekly
points = Σ over fixture index i of scoring_rule(prediction[i], result[i])
for i < min(len(predictions), len(results))"), to be compared with the
embedded implementation. -/

/-- The spec's weekly points formula: sum of the scoring rule over fixture
index `i < min(len(predictions), len(results))`. -/
def specWeekUserPoints (ps : List Prediction) (rs : List ResultRow) : Option Int :=
  optSum ((List.range (min ps.length rs.length)).map
    (fun i => calculate_points (ps.getD i { home_score := none, away_score := none })
      (some (rs.getD i { home_score := none, away_score := none }))))

/-- The spec's week points of user `u` for week `week`: 0 when no result
document exists, 0 when the user's predictions are missing (or stored in an
unrecognized shape), else the `specWeekUserPoints` sum. -/
def specWeekPointsFor (st : Store) (week : Nat) (u : String) : Option Int :=
  match st.results week with
  | none => some 0
  | some rs =>
    match List.lookup u (st.predictions week) with
    | none => some 0
    | some entry =>
      match userPredsOf entry with
      | none => some 0
      | some ps => specWeekUserPoints ps rs

/-- Sum of all manual adjustment deltas logged for user `u`. -/
def adjustmentSum (adjs : List Adjustment) (u : String) : Int :=
  ((adjs.filter (fun a => a.username = u)).map (fun a => a.points_change)).sum

/-- The spec's leaderboard-total formula over weeks `1 .. current_week - 1`
(the boundary the implementation uses). -/
def specUserTotal (st : Store) (u : String) : Option Int :=
  (optSum ((weekRange st.current_week).map (fun w => specWeekPointsFor st w u))).map
    (fun s => s + adjustmentSum st.adjustments u)

/-- The claim's leaderboard-total formula read literally: weeks
`1 .. current_week` inclusive. -/
def specUserTotalStated (st : Store) (u : String) : Option Int :=
  (optSum ((List.range' 1 st.current_week).map (fun w => specWeekPointsFor st w u))).map
    (fun s => s + adjustmentSum st.adjustments u)

/-! ## Helper lemmas -/

theorem specWeekUserPoints_eq_weekPoints (ps : List Prediction) (rs : List ResultRow) :
    specWeekUserPoints ps rs = weekPoints ps rs := by
  induction ps generalizing rs with
  | nil => simp [specWeekUserPoints, weekPoints]
  | cons p ps ih =>
    cases rs with
    | nil => simp [specWeekUserPoints, weekPoints]
    | cons r rs =>
      have h := ih rs
      simp only [specWeekUserPoints, weekPoints] at h ⊢
      rw [List.length_cons, List.length_cons, Nat.succ_min_succ, List.range_succ_eq_map,
        List.map_cons, List.map_map, List.zip_cons_cons, List.map_cons]
      simp only [Function.comp_def, Nat.succ_eq_add_one, List.getD_cons_succ,
        List.getD_cons_zero]
      simp only [optSum]
      rw [h]

theorem optMapM_congr (f g : α → Option β) (h : ∀ a, f a = g a) (l : List α) :
    optMapM f l = optMapM g l := by
  induction l with
  | nil => rfl
  | cons a l ih => simp only [optMapM, h a, ih]

theorem optMapM_pure (l : List α) : optMapM (fun a => some a) l = some l := by
  induction l with
  | nil => rfl
  | cons a l ih => simp [optMapM, ih]

theorem optMapM_bind (f : α → Option β) (g : β → Option γ) (l : List α) :
    optMapM (fun a => (f a).bind g) l = (optMapM f l).bind (optMapM g) := by
  induction l with
  | nil => rfl
  | cons a l ih =>
    simp only [optMapM, ih]
    cases f a with
    | none => rfl
    | some b =>
      simp only [Option.some_bind]
      cases optMapM f l with
      | none =>
        simp only [Option.none_bind, Option.map_none']
        cases g b <;> rfl
      | some l2 => simp only [Option.map_some', Option.some_bind, optMapM]

theorem optMapM_mem (f : α → Option β) :
    ∀ (l : List α) (l2 : List β), optMapM f l = some l2 →
      ∀ b ∈ l2, ∃ a ∈ l, f a = some b := by
  intro l
  induction l with
  | nil =>
    intro l2 h b hb
    simp only [optMapM] at h
    cases h
    simp at hb
  | cons a l ih =>
    intro l2 h b hb
    simp only [optMapM] at h
    cases hfa : f a with
    | none => rw [hfa] at h; cases h
    | some c =>
      rw [hfa] at h
      cases hl : optMapM f l with
      | none => rw [hl] at h; cases h
      | some l3 =>
        rw [hl] at h
        simp only [Option.some_bind, Option.map_some'] at h
        cases h
        rcases List.mem_cons.mp hb with rfl | hb2
        · exact ⟨a, List.mem_cons_self a l, hfa⟩
        · obtain ⟨a2, ha2, hfa2⟩ := ih l3 hl b hb2
          exact ⟨a2, List.mem_cons_of_mem a ha2, hfa2⟩

theorem optFoldl_congr (f g : β → α → Option β) (h : ∀ b a, f b a = g b a) :
    ∀ (b : β) (l : List α), optFoldl f b l = optFoldl g b l := by
  intro b l
  induction l generalizing b with
  | nil => rfl
  | cons a l ih => simp only [optFoldl, h b a]; cases g b a <;> simp [ih]

theorem optFoldl_optMapM (s : γ → α → Option α) (ws : List γ) (l : List α) :
    optFoldl (fun acc w => optMapM (s w) acc) l ws =
      optMapM (fun a => optFoldl (fun b w => s w b) a ws) l := by
  induction ws generalizing l with
  | nil => exact (optMapM_pure l).symm
  | cons w ws ih =>
    simp only [optFoldl]
    rw [optMapM_bind]
    cases optMapM (s w) l with
    | none => rfl
    | some l2 => simpa using ih l2

theorem processWeek_eq_mapM (st : Store) (scores : List (String × UserScore)) (w : Nat) :
    processWeek st scores w = optMapM (stepUser st w) scores := by
  cases hres : st.results w with
  | none =>
    rw [optMapM_congr (stepUser st w) (fun p => some p)
      (fun p => by simp only [stepUser, hres]) scores, optMapM_pure]
    simp only [processWeek, hres]
  | some results =>
    by_cases h1 : results.length = 0
    · rw [optMapM_congr (stepUser st w) (fun p => some p)
        (fun p => by simp only [stepUser, hres]; simp [h1]) scores, optMapM_pure]
      simp only [processWeek, hres]
      simp [h1]
    · by_cases h2 : (st.predictions w).length = 0
      · rw [optMapM_congr (stepUser st w) (fun p => some p)
          (fun p => by simp only [stepUser, hres]; simp [h1, h2]) scores, optMapM_pure]
        simp only [processWeek, hres]
        simp [h1, h2]
      · simp only [processWeek, hres]
        simp [h1, h2]

theorem stepUser_spec (st : Store) (w : Nat) (p : String × UserScore) :
    (stepUser st w p = none ∧ specWeekPointsFor st w p.1 = none) ∨
      ∃ q x, stepUser st w p = some q ∧ specWeekPointsFor st w p.1 = some x ∧
        q.1 = p.1 ∧ q.2.total_points = p.2.total_points + x ∧
        q.2.manual_adjustments = p.2.manual_adjustments ∧
        q.2.display_name = p.2.display_name := by
  cases hres : st.results w with
  | none =>
    refine Or.inr ⟨p, 0, ?_, ?_, rfl, (add_zero _).symm, rfl, rfl⟩
    · simp only [stepUser, hres]
    · simp only [specWeekPointsFor, hres]
  | some rs =>
    cases hl : List.lookup p.1 (st.predictions w) with
    | none =>
      refine Or.inr ⟨p, 0, ?_, ?_, rfl, (add_zero _).symm, rfl, rfl⟩
      · simp only [stepUser, hres]
        by_cases h1 : rs.length = 0
        · simp [h1]
        · by_cases h2 : (st.predictions w).length = 0
          · simp [h1, h2]
          · simp [h1, h2, hl]
      · simp only [specWeekPointsFor, hres, hl]
    | some entry =>
      have h2 : ¬ (st.predictions w).length = 0 := by
        intro h0
        rw [List.length_eq_zero.mp h0] at hl
        simp at hl
      cases hup : userPredsOf entry with
      | none =>
        refine Or.inr ⟨p, 0, ?_, ?_, rfl, (add_zero _).symm, rfl, rfl⟩
        · simp only [stepUser, hres]
          by_cases h1 : rs.length = 0
          · simp [h1]
          · simp [h1, h2, hl, hup]
        · simp only [specWeekPointsFor, hres, hl, hup]
      | some ups =>
        by_cases h1 : rs.length = 0
        · have hrs : rs = [] := List.length_eq_zero.mp h1
          subst hrs
          refine Or.inr ⟨p, 0, ?_, ?_, rfl, (add_zero _).symm, rfl, rfl⟩
          · simp only [stepUser, hres]; simp
          · simp only [specWeekPointsFor, hres, hl, hup,
              specWeekUserPoints_eq_weekPoints]
            simp [weekPoints, optSum]
        · cases hwp : weekPoints ups rs with
          | none =>
            refine Or.inl ⟨?_, ?_⟩
            · simp only [stepUser, hres]; simp [h1, h2, hl, hup, hwp]
            · simp only [specWeekPointsFor, hres, hl, hup,
                specWeekUserPoints_eq_weekPoints, hwp]
          | some wp =>
            refine Or.inr ⟨(p.1, { p.2 with
                total_points := p.2.total_points + wp,
                weeks_played := p.2.weeks_played + 1,
                weekly_breakdown := p.2.weekly_breakdown ++ [(w, wp)] }), wp,
              ?_, ?_, rfl, rfl, rfl, rfl⟩
            · simp only [stepUser, hres]; simp [h1, h2, hl, hup, hwp]
            · simp only [specWeekPointsFor, hres, hl, hup,
                specWeekUserPoints_eq_weekPoints, hwp]

theorem entryFold_spec (st : Store) (ws : List Nat) :
    ∀ p q : String × UserScore,
      optFoldl (fun b w => stepUser st w b) p ws = some q →
      ∃ s, optSum (ws.map (fun w => specWeekPointsFor st w p.1)) = some s ∧
        q.1 = p.1 ∧ q.2.total_points = p.2.total_points + s ∧
        q.2.manual_adjustments = p.2.manual_adjustments ∧
        q.2.display_name = p.2.display_name := by
  induction ws with
  | nil =>
    intro p q h
    simp only [optFoldl] at h
    cases h
    exact ⟨0, rfl, rfl, (add_zero _).symm, rfl, rfl⟩
  | cons w ws ih =>
    intro p q h
    simp only [optFoldl] at h
    rcases stepUser_spec st w p with ⟨hn, _⟩ | ⟨r, x, hr, hx, h1, h2, h3, h4⟩
    · rw [hn] at h; cases h
    · rw [hr] at h
      simp only [Option.some_bind] at h
      obtain ⟨s, hs, hq1, hq2, hq3, hq4⟩ := ih r q h
      rw [h1] at hs
      refine ⟨x + s, ?_, hq1.trans h1, ?_, hq3.trans h3, hq4.trans h4⟩
      · simp only [List.map_cons, optSum, hx, hs, Option.some_bind, Option.map_some']
      · rw [hq2, h2, add_assoc]

/-- The cumulative effect of the manual-adjustment fold on a single user
entry (helper for reasoning about `applyAdjustment` folds). -/
def applyAdjList (adjs : List Adjustment) (p : String × UserScore) : String × UserScore :=
  adjs.foldl (fun q a =>
    if q.1 = a.username then
      (q.1, { q.2 with total_points := q.2.total_points + a.points_change,
                       manual_adjustments := q.2.manual_adjustments + a.points_change })
    else q) p

theorem adjFold_map (adjs : List Adjustment) (scores : List (String × UserScore)) :
    adjs.foldl applyAdjustment scores = scores.map (applyAdjList adjs) := by
  induction adjs generalizing scores with
  | nil =>
    have h0 : applyAdjList [] = (fun p : String × UserScore => p) := rfl
    rw [List.foldl_nil, h0]
    simp
  | cons a adjs ih =>
    rw [List.foldl_cons, ih]
    unfold applyAdjustment
    rw [List.map_map]
    exact List.map_congr_left (fun p _ => rfl)

theorem adjustmentSum_cons (a : Adjustment) (adjs : List Adjustment) (u : String) :
    adjustmentSum (a :: adjs) u =
      (if a.username = u then a.points_change else 0) + adjustmentSum adjs u := by
  by_cases h : a.username = u <;> simp [adjustmentSum, List.filter_cons, h]

theorem applyAdjList_spec (adjs : List Adjustment) :
    ∀ p : String × UserScore,
      (applyAdjList adjs p).1 = p.1 ∧
      (applyAdjList adjs p).2.total_points
        = p.2.total_points + adjustmentSum adjs p.1 ∧
      (applyAdjList adjs p).2.manual_adjustments
        = p.2.manual_adjustments + adjustmentSum adjs p.1 ∧
      (applyAdjList adjs p).2.weeks_played = p.2.weeks_played ∧
      (applyAdjList adjs p).2.weekly_breakdown = p.2.weekly_breakdown ∧
      (applyAdjList adjs p).2.display_name = p.2.display_name := by
  induction adjs with
  | nil => intro p; simp [applyAdjList, adjustmentSum]
  | cons a adjs ih =>
    intro p
    have hstep : applyAdjList (a :: adjs) p = applyAdjList adjs
        (if p.1 = a.username then
          (p.1, { p.2 with total_points := p.2.total_points + a.points_change,
                           manual_adjustments := p.2.manual_adjustments + a.points_change })
         else p) := rfl
    by_cases h : p.1 = a.username
    · obtain ⟨i1, i2, i3, i4, i5, i6⟩ := ih
        (p.1, { p.2 with total_points := p.2.total_points + a.points_change,
                         manual_adjustments := p.2.manual_adjustments + a.points_change })
      have hsum : adjustmentSum (a :: adjs) p.1
          = a.points_change + adjustmentSum adjs p.1 := by
        rw [adjustmentSum_cons, if_pos h.symm]
      rw [hstep, if_pos h, hsum]
      refine ⟨i1, ?_, ?_, i4, i5, i6⟩
      · rw [i2]
        show p.2.total_points + a.points_change + adjustmentSum adjs p.1
          = p.2.total_points + (a.points_change + adjustmentSum adjs p.1)
        rw [add_assoc]
      · rw [i3]
        show p.2.manual_adjustments + a.points_change + adjustmentSum adjs p.1
          = p.2.manual_adjustments + (a.points_change + adjustmentSum adjs p.1)
        rw [add_assoc]
    · obtain ⟨i1, i2, i3, i4, i5, i6⟩ := ih p
      have hsum : adjustmentSum (a :: adjs) p.1 = adjustmentSum adjs p.1 := by
        rw [adjustmentSum_cons, if_neg (fun hh => h hh.symm), zero_add]
      rw [hstep, if_neg h, hsum]
      exact ⟨i1, i2, i3, i4, i5, i6⟩

theorem mem_initUserScores (users : List (String × UserInfo)) (p : String × UserScore)
    (hp : p ∈ initUserScores users) :
    p.1 ≠ "admin" ∧ p.2.total_points = 0 ∧ p.2.weeks_played = 0 ∧
      p.2.weekly_breakdown = [] ∧ p.2.manual_adjustments = 0 := by
  unfold initUserScores at hp
  obtain ⟨q, hq, rfl⟩ := List.mem_map.mp hp
  have hf := List.mem_filter.mp hq
  exact ⟨by simpa using hf.2, rfl, rfl, rfl, rfl⟩

theorem calculate_user_scores_eq (st : Store) :
    calculate_user_scores st =
      (optMapM (fun p => optFoldl (fun b w => stepUser st w b) p (weekRange st.current_week))
        (initUserScores st.users)).map
        (fun mid => mid.map (applyAdjList st.adjustments)) := by
  unfold calculate_user_scores
  rw [optFoldl_congr (processWeek st) (fun sc w => optMapM (stepUser st w) sc)
    (fun sc w => processWeek_eq_mapM st sc w) (initUserScores st.users)
    (weekRange st.current_week), optFoldl_optMapM]
  cases optMapM (fun p => optFoldl (fun b w => stepUser st w b) p (weekRange st.current_week))
      (initUserScores st.users) with
  | none => rfl
  | some mid =>
    simp only [Option.map_some']
    rw [adjFold_map]

theorem processWeek_fields_congr (st st2 : Store) (hres : st2.results = st.results)
    (hpred : st2.predictions = st.predictions)
    (sc : List (String × UserScore)) (w : Nat) :
    processWeek st2 sc w = processWeek st sc w := by
  rw [processWeek_eq_mapM, processWeek_eq_mapM]
  exact optMapM_congr _ _ (fun p => by simp only [stepUser, hres, hpred]) sc

theorem insertDesc_perm (x : LBEntry) (l : List LBEntry) :
    List.Perm (insertDesc x l) (x :: l) := by
  induction l with
  | nil => exact List.Perm.refl _
  | cons a t ih =>
    simp only [insertDesc]
    by_cases hc : a.total_points < x.total_points
    · rw [if_pos hc]
    · rw [if_neg hc]
      exact (List.Perm.cons a ih).trans (List.Perm.swap x a t)

theorem sortDescAux_perm :
    ∀ (l acc : List LBEntry),
      List.Perm (l.foldl (fun acc x => insertDesc x acc) acc) (acc ++ l) := by
  intro l
  induction l with
  | nil => intro acc; simp
  | cons x l ih =>
    intro acc
    rw [List.foldl_cons]
    exact (ih (insertDesc x acc)).trans
      (((insertDesc_perm x acc).append_right l).trans List.perm_middle.symm)

theorem sortDesc_perm (l : List LBEntry) : List.Perm (sortDesc l) l := by
  simpa using sortDescAux_perm l []

theorem insertDesc_pairwise (x : LBEntry) (l : List LBEntry)
    (h : List.Pairwise (fun a b => b.total_points ≤ a.total_points) l) :
    List.Pairwise (fun a b => b.total_points ≤ a.total_points) (insertDesc x l) := by
  induction l with
  | nil => simp [insertDesc]
  | cons a t ih =>
    rcases List.pairwise_cons.mp h with ⟨ha, ht⟩
    simp only [insertDesc]
    by_cases hc : a.total_points < x.total_points
    · rw [if_pos hc]
      refine List.pairwise_cons.mpr ⟨?_, h⟩
      intro b hb
      rcases List.mem_cons.mp hb with rfl | hb2
      · exact le_of_lt hc
      · exact le_trans (ha b hb2) (le_of_lt hc)
    · rw [if_neg hc]
      refine List.pairwise_cons.mpr ⟨?_, ih ht⟩
      intro b hb
      rcases List.mem_cons.mp ((insertDesc_perm x t).mem_iff.mp hb) with rfl | hb2
      · exact le_of_not_lt hc
      · exact ha b hb2

theorem sortDescAux_pairwise :
    ∀ (l acc : List LBEntry),
      List.Pairwise (fun a b => b.total_points ≤ a.total_points) acc →
      List.Pairwise (fun a b => b.total_points ≤ a.total_points)
        (l.foldl (fun acc x => insertDesc x acc) acc) := by
  intro l
  induction l with
  | nil => intro acc h; exact h
  | cons x l ih =>
    intro acc h
    rw [List.foldl_cons]
    exact ih (insertDesc x acc) (insertDesc_pairwise x acc h)

theorem sortDesc_pairwise (l : List LBEntry) :
    List.Pairwise (fun a b => b.total_points ≤ a.total_points) (sortDesc l) :=
  sortDescAux_pairwise l [] (List.Pairwise.nil)

theorem insertDesc_filter (x : LBEntry) (l : List LBEntry) (k : Int)
    (h : List.Pairwise (fun a b => b.total_points ≤ a.total_points) l) :
    (insertDesc x l).filter (fun e => e.total_points = k)
      = l.filter (fun e => e.total_points = k)
        ++ (if x.total_points = k then [x] else []) := by
  induction l with
  | nil =>
    by_cases hx : x.total_points = k <;> simp [insertDesc, List.filter_cons, hx]
  | cons a t ih =>
    rcases List.pairwise_cons.mp h with ⟨ha, ht⟩
    simp only [insertDesc]
    by_cases hc : a.total_points < x.total_points
    · rw [if_pos hc]
      by_cases hx : x.total_points = k
      · have hempty : (a :: t).filter (fun e => e.total_points = k) = [] := by
          rw [List.filter_eq_nil_iff]
          intro b hb
          rcases List.mem_cons.mp hb with rfl | hb2
          · simp only [decide_eq_true_eq]
            omega
          · have hb3 := ha b hb2
            simp only [decide_eq_true_eq]
            omega
        rw [hempty]
        simp [List.filter_cons, hx, hempty]
      · have h2 : (x :: a :: t).filter (fun e => e.total_points = k)
            = (a :: t).filter (fun e => e.total_points = k) := by
          simp [List.filter_cons, hx]
        rw [h2]
        simp [hx]
    · rw [if_neg hc]
      rw [List.filter_cons, ih ht]
      by_cases hax : a.total_points = k
      · simp [List.filter_cons, hax]
      · simp [List.filter_cons, hax]

theorem sortDescAux_filter (k : Int) :
    ∀ (l acc : List LBEntry),
      List.Pairwise (fun a b => b.total_points ≤ a.total_points) acc →
      (l.foldl (fun acc x => insertDesc x acc) acc).filter (fun e => e.total_points = k)
        = acc.filter (fun e => e.total_points = k)
          ++ l.filter (fun e => e.total_points = k) := by
  intro l
  induction l with
  | nil => intro acc h; simp
  | cons x l ih =>
    intro acc h
    rw [List.foldl_cons, ih (insertDesc x acc) (insertDesc_pairwise x acc h),
      insertDesc_filter x acc k h, List.filter_cons]
    by_cases hx : x.total_points = k <;> simp [hx, List.append_assoc]

theorem sortDesc_filter (l : List LBEntry) (k : Int) :
    (sortDesc l).filter (fun e => e.total_points = k)
      = l.filter (fun e => e.total_points = k) := by
  simpa using sortDescAux_filter k l [] (List.Pairwise.nil)

/-! ## Concrete stores for witnesses and counterexamples -/

/-- A small store: one non-admin user who predicted week 1 exactly, a week-1
result document, one manual adjustment of +3, `current_week = 2`. -/
def wSt : Store :=
  { users := [("admin", { display_name := "Administrator" }),
              ("alice", { display_name := "Alice" })]
    current_week := 2
    results := fun w => if w = 1 then
        some [{ home_score := some (RawScore.num 1),
                away_score := some (RawScore.num 0) }]
      else none
    predictions := fun w => if w = 1 then
        [("alice", PredEntry.plain [{ home_score := some 1, away_score := some 0 }])]
      else []
    adjustments := [{ username := "alice", points_change := 3, reason := "bonus",
                      admin_user := "admin", timestamp := "2024-01-01" }] }

/-- The score record `calculate_user_scores` produces for `"alice"` on `wSt`. -/
def wScore : UserScore :=
  { display_name := "Alice", total_points := 5, weeks_played := 1,
    weekly_breakdown := [(1, 2)], manual_adjustments := 3 }

/-! ## C1 -/

/-- C1 (amended): for every user entry produced by `calculate_user_scores`,
the stored total equals the specification formula: the sum of that user's
week points over weeks `1 .. current_week - 1` in which a result document
exists, plus the sum of all manual adjustment deltas logged for that user;
week points are the sum of the scoring rule over fixture index
`i < min(len(predictions), len(results))`, with missing predictions scored
as 0. -/
theorem c1_user_total_matches_spec (st : Store) (scores : List (String × UserScore))
    (h : calculate_user_scores st = some scores) :
    ∀ p ∈ scores, specUserTotal st p.1 = some p.2.total_points := by
  rw [calculate_user_scores_eq] at h
  cases hm : optMapM (fun p => optFoldl (fun b w => stepUser st w b) p
      (weekRange st.current_week)) (initUserScores st.users) with
  | none => rw [hm] at h; cases h
  | some mid =>
    rw [hm] at h
    simp only [Option.map_some'] at h
    cases h
    intro p hp
    obtain ⟨q, hq, rfl⟩ := List.mem_map.mp hp
    obtain ⟨a2, ha2, hfa⟩ := optMapM_mem _ _ _ hm q hq
    obtain ⟨s, hs, e1, e2, _, _⟩ := entryFold_spec st (weekRange st.current_week) a2 q hfa
    obtain ⟨j1, j2, _, _, _, _⟩ := applyAdjList_spec st.adjustments q
    obtain ⟨_, k2, _, _, _⟩ := mem_initUserScores st.users a2 ha2
    simp only [specUserTotal, j1, e1, hs, Option.map_some', j2, e2, k2, zero_add]

/-- Store refuting C1's literal week range: `current_week = 1` with a week-1
result document present and an exact week-1 prediction. -/
def c1St : Store :=
  { users := [("alice", { display_name := "Alice" })]
    current_week := 1
    results := fun w => if w = 1 then
        some [{ home_score := some (RawScore.num 1),
                away_score := some (RawScore.num 0) }]
      else none
    predictions := fun w => if w = 1 then
        [("alice", PredEntry.plain [{ home_score := some 1, away_score := some 0 }])]
      else []
    adjustments := [] }

/-- The (all-zero) score record `calculate_user_scores` produces on `c1St`. -/
def c1Score : UserScore :=
  { display_name := "Alice", total_points := 0, weeks_played := 0,
    weekly_breakdown := [], manual_adjustments := 0 }

/-- C1 counterexample: the claim reads the boundary as weeks
`1 .. current_week` wherever a result document exists, but the code scores
`range(1, current_week)` only; on `c1St` the claim formula gives 2 while the
computed total is 0. -/
theorem c1_inclusive_boundary_cex :
    calculate_user_scores c1St = some [("alice", c1Score)] ∧
      c1Score.total_points = 0 ∧
      specUserTotalStated c1St "alice" = some 2 ∧
      some (0 : Int) ≠ some (2 : Int) := by
  refine ⟨by rfl, by rfl, by rfl, by decide⟩

/-- C1 witness: the amended theorem applied at the concrete store `wSt`. -/
theorem c1_user_total_matches_spec_witness :
    calculate_user_scores wSt = some [("alice", wScore)] ∧
      specUserTotal wSt "alice" = some 5 := by
  have h : calculate_user_scores wSt = some [("alice", wScore)] := by rfl
  exact ⟨h, c1_user_total_matches_spec wSt [("alice", wScore)] h ("alice", wScore)
    (by simp)⟩

/-! ## C9 -/

/-- C9: folding one more manual adjustment into the aggregation changes only
the matching user's `total_points` and `manual_adjustments`, each by exactly
the adjustment's delta; `weekly_breakdown`, `weeks_played` and
`display_name` of every user and all fields of non-matching users are
unchanged (the record update below touches no other field). -/
theorem c9_adjustment_frame (st st2 : Store) (a : Adjustment)
    (husers : st2.users = st.users) (hcw : st2.current_week = st.current_week)
    (hres : st2.results = st.results) (hpred : st2.predictions = st.predictions)
    (hadj : st2.adjustments = st.adjustments ++ [a])
    (scores : List (String × UserScore))
    (h : calculate_user_scores st = some scores) :
    calculate_user_scores st2 = some (scores.map (fun p =>
      if p.1 = a.username then
        (p.1, { p.2 with
          total_points := p.2.total_points + a.points_change,
          manual_adjustments := p.2.manual_adjustments + a.points_change })
      else p)) := by
  have key : optFoldl (processWeek st2) (initUserScores st2.users)
      (weekRange st2.current_week)
      = optFoldl (processWeek st) (initUserScores st.users)
        (weekRange st.current_week) := by
    rw [husers, hcw]
    exact optFoldl_congr _ _
      (fun sc w => processWeek_fields_congr st st2 hres hpred sc w) _ _
  unfold calculate_user_scores at h ⊢
  rw [key, hadj]
  cases hm : optFoldl (processWeek st) (initUserScores st.users)
      (weekRange st.current_week) with
  | none => rw [hm] at h; cases h
  | some mid =>
    rw [hm] at h
    cases h
    show some ((st.adjustments ++ [a]).foldl applyAdjustment mid)
      = some ((st.adjustments.foldl applyAdjustment mid).map (fun p =>
          if p.1 = a.username then
            (p.1, { p.2 with
              total_points := p.2.total_points + a.points_change,
              manual_adjustments := p.2.manual_adjustments + a.points_change })
          else p))
    rw [List.foldl_append, List.foldl_cons, List.foldl_nil]
    rfl

/-- The adjustment appended in the C9 witness. -/
def wAdj : Adjustment :=
  { username := "alice", points_change := -2, reason := "late entry",
    admin_user := "admin", timestamp := "2024-02-01" }

/-- The C9 witness store: `wSt` with `wAdj` appended to the log. -/
def wSt2 : Store :=
  { users := wSt.users, current_week := wSt.current_week, results := wSt.results,
    predictions := wSt.predictions, adjustments := wSt.adjustments ++ [wAdj] }

/-- C9 witness: the frame theorem applied at `wSt` and `wAdj`; only the
total (5 to 3) and the manual subtotal (3 to 1) move. -/
theorem c9_adjustment_frame_witness :
    calculate_user_scores wSt2 = some [("alice",
      { display_name := "Alice", total_points := 3, weeks_played := 1,
        weekly_breakdown := [(1, 2)], manual_adjustments := 1 })] := by
  have h := c9_adjustment_frame wSt wSt2 wAdj rfl rfl rfl rfl rfl
    [("alice", wScore)] (by rfl)
  exact h

/-! ## C7 -/

/-- C7: the reserved "admin" identity never appears in the outputs of the
scoring aggregation: neither among the usernames of `calculate_user_scores`
nor among the entries of `get_leaderboard`, for any store. -/
theorem c7_admin_never_in_outputs (st : Store) :
    (∀ scores, calculate_user_scores st = some scores →
        ∀ p ∈ scores, p.1 ≠ "admin") ∧
      (∀ lb, get_leaderboard st = some lb → ∀ e ∈ lb, e.username ≠ "admin") := by
  have hA : ∀ scores, calculate_user_scores st = some scores →
      ∀ p ∈ scores, p.1 ≠ "admin" := by
    intro scores h p hp
    rw [calculate_user_scores_eq] at h
    cases hm : optMapM (fun p => optFoldl (fun b w => stepUser st w b) p
        (weekRange st.current_week)) (initUserScores st.users) with
    | none => rw [hm] at h; cases h
    | some mid =>
      rw [hm] at h
      simp only [Option.map_some'] at h
      cases h
      obtain ⟨q, hq, rfl⟩ := List.mem_map.mp hp
      obtain ⟨a2, ha2, hfa⟩ := optMapM_mem _ _ _ hm q hq
      obtain ⟨s, _, e1, _, _, _⟩ := entryFold_spec st (weekRange st.current_week) a2 q hfa
      have j1 := (applyAdjList_spec st.adjustments q).1
      have k1 := (mem_initUserScores st.users a2 ha2).1
      rw [j1, e1]
      exact k1
  refine ⟨hA, ?_⟩
  intro lb h e he
  unfold get_leaderboard at h
  cases hm : calculate_user_scores st with
  | none => rw [hm] at h; cases h
  | some scores =>
    rw [hm] at h
    cases h
    have he2 := (sortDesc_perm _).subset he
    obtain ⟨p, hp, rfl⟩ := List.mem_map.mp he2
    exact hA scores hm p hp

/-- C7 witness: the theorem applied at `wSt` (whose users store contains
"admin"). -/
theorem c7_admin_never_in_outputs_witness :
    calculate_user_scores wSt = some [("alice", wScore)] ∧
      ("alice" : String) ≠ "admin" := by
  have h : calculate_user_scores wSt = some [("alice", wScore)] := by rfl
  exact ⟨h, (c7_admin_never_in_outputs wSt).1 [("alice", wScore)] h
    ("alice", wScore) (by simp)⟩

/-! ## C10 -/

/-- C10: every leaderboard entry's `current_week_points` is the entry's
breakdown value for week `current_week - 1` (0 when that entry is absent)
when `current_week > 1`, and 0 when `current_week <= 1`; it never reads the
breakdown of `current_week` itself. -/
theorem c10_current_week_points_prev_week (st : Store) (lb : List LBEntry)
    (h : get_leaderboard st = some lb) :
    ∀ e ∈ lb, e.current_week_points
      = if 1 < st.current_week then
          (List.lookup (st.current_week - 1) e.weekly_breakdown).getD 0
        else 0 := by
  intro e he
  unfold get_leaderboard at h
  cases hm : calculate_user_scores st with
  | none => rw [hm] at h; cases h
  | some scores =>
    rw [hm] at h
    cases h
    have he2 := (sortDesc_perm _).subset he
    obtain ⟨p, hp, rfl⟩ := List.mem_map.mp he2
    rfl

/-- The leaderboard entry `get_leaderboard` produces for `"alice"` on `wSt`. -/
def wEntry : LBEntry :=
  { username := "alice", display_name := "Alice", total_points := 5,
    weeks_played := 1, average_points := 5, current_week_points := 2,
    weekly_breakdown := [(1, 2)], manual_adjustments := 3 }

theorem round2_intCast (n : Int) : round2 ((n : ℚ)) = (n : ℚ) := by
  unfold round2 roundHalfEven
  have h100 : ((n : ℚ) * 100) = (((n * 100 : Int)) : ℚ) := by push_cast; ring
  rw [h100, Int.floor_intCast, sub_self,
    if_pos (show (0 : ℚ) < 1 / 2 by norm_num)]
  push_cast
  ring

theorem mkEntry_wSt_alice : mkEntry wSt.current_week ("alice", wScore) = wEntry := by
  have havg : round2 (((5 : Int) : ℚ) / ((max 1 1 : Nat) : ℚ)) = 5 := by
    have h1 : (((5 : Int) : ℚ) / ((max 1 1 : Nat) : ℚ)) = (((5 : Int)) : ℚ) := by
      norm_num
    rw [h1, round2_intCast]
    norm_num
  simp only [mkEntry, wScore, wEntry, wSt]
  rw [havg]
  simp [List.lookup]

theorem get_leaderboard_wSt : get_leaderboard wSt = some [wEntry] := by
  have h1 : calculate_user_scores wSt = some [("alice", wScore)] := by rfl
  unfold get_leaderboard
  rw [h1]
  show some (sortDesc (unsortedLeaderboard wSt.current_week [("alice", wScore)]))
    = some [wEntry]
  rw [show unsortedLeaderboard wSt.current_week [("alice", wScore)] = [wEntry] by
    simp [unsortedLeaderboard, mkEntry_wSt_alice]]
  rfl

/-- C10 witness: applied at `wSt` (current week 2, so the shown value is the
week-1 breakdown entry). -/
theorem c10_current_week_points_prev_week_witness :
    get_leaderboard wSt = some [wEntry] ∧
      wEntry.current_week_points
        = if 1 < wSt.current_week then
            (List.lookup (wSt.current_week - 1) wEntry.weekly_breakdown).getD 0
          else 0 := by
  have h : get_leaderboard wSt = some [wEntry] := get_leaderboard_wSt
  exact ⟨h, c10_current_week_points_prev_week wSt [wEntry] h wEntry (by simp)⟩

/-! ## C5 -/

/-- C5: the leaderboard is sorted by `total_points` in descending order and
the sort is stable: it is a permutation of the unsorted aggregation list,
and for every total value the entries holding it appear in exactly the
aggregation (user-insertion) order — the tie order never depends on anything
but that fixed order; determinism holds because the embedded computation is
a pure function of the store. -/
theorem c5_leaderboard_sorted_stable (st : Store) (scores : List (String × UserScore))
    (lb : List LBEntry) (hs : calculate_user_scores st = some scores)
    (h : get_leaderboard st = some lb) :
    List.Pairwise (fun a b => b.total_points ≤ a.total_points) lb ∧
      List.Perm lb (unsortedLeaderboard st.current_week scores) ∧
      ∀ k : Int, lb.filter (fun e => e.total_points = k)
        = (unsortedLeaderboard st.current_week scores).filter
            (fun e => e.total_points = k) := by
  unfold get_leaderboard at h
  rw [hs] at h
  cases h
  exact ⟨sortDesc_pairwise _, sortDesc_perm _, fun k => sortDesc_filter _ k⟩

/-- C5 witness: the theorem applied at `wSt`. -/
theorem c5_leaderboard_sorted_stable_witness :
    get_leaderboard wSt = some [wEntry] ∧
      List.Pairwise (fun a b => b.total_points ≤ a.total_points) [wEntry] := by
  have hs : calculate_user_scores wSt = some [("alice", wScore)] := by rfl
  have h : get_leaderboard wSt = some [wEntry] := get_leaderboard_wSt
  exact ⟨h, (c5_leaderboard_sorted_stable wSt [("alice", wScore)] [wEntry] hs h).1⟩

/-! ## C2 -/

theorem outcomeOf_eq_iff_sign (h a g b : Int) :
    (outcomeOf h a = outcomeOf g b) ↔ Int.sign (h - a) = Int.sign (g - b) := by
  have oaway : ∀ x y : Int, x < y → outcomeOf x y = Outcome.away := fun x y c => by
    unfold outcomeOf; rw [if_neg (by omega), if_neg (by omega)]
  have odraw : ∀ x y : Int, x = y → outcomeOf x y = Outcome.draw := fun x y c => by
    unfold outcomeOf; rw [if_pos c]
  have ohome : ∀ x y : Int, y < x → outcomeOf x y = Outcome.home := fun x y c => by
    unfold outcomeOf; rw [if_neg (by omega), if_pos (by omega)]
  rcases lt_trichotomy h a with c1 | c1 | c1 <;>
    rcases lt_trichotomy g b with c2 | c2 | c2
  · rw [oaway _ _ c1, oaway _ _ c2,
      Int.sign_eq_neg_one_iff_neg.mpr (show h - a < 0 by omega),
      Int.sign_eq_neg_one_iff_neg.mpr (show g - b < 0 by omega)]
    decide
  · rw [oaway _ _ c1, odraw _ _ c2,
      Int.sign_eq_neg_one_iff_neg.mpr (show h - a < 0 by omega),
      Int.sign_eq_zero_iff_zero.mpr (show g - b = 0 by omega)]
    decide
  · rw [oaway _ _ c1, ohome _ _ c2,
      Int.sign_eq_neg_one_iff_neg.mpr (show h - a < 0 by omega),
      Int.sign_eq_one_iff_pos.mpr (show 0 < g - b by omega)]
    decide
  · rw [odraw _ _ c1, oaway _ _ c2,
      Int.sign_eq_zero_iff_zero.mpr (show h - a = 0 by omega),
      Int.sign_eq_neg_one_iff_neg.mpr (show g - b < 0 by omega)]
    decide
  · rw [odraw _ _ c1, odraw _ _ c2,
      Int.sign_eq_zero_iff_zero.mpr (show h - a = 0 by omega),
      Int.sign_eq_zero_iff_zero.mpr (show g - b = 0 by omega)]
    decide
  · rw [odraw _ _ c1, ohome _ _ c2,
      Int.sign_eq_zero_iff_zero.mpr (show h - a = 0 by omega),
      Int.sign_eq_one_iff_pos.mpr (show 0 < g - b by omega)]
    decide
  · rw [ohome _ _ c1, oaway _ _ c2,
      Int.sign_eq_one_iff_pos.mpr (show 0 < h - a by omega),
      Int.sign_eq_neg_one_iff_neg.mpr (show g - b < 0 by omega)]
    decide
  · rw [ohome _ _ c1, odraw _ _ c2,
      Int.sign_eq_one_iff_pos.mpr (show 0 < h - a by omega),
      Int.sign_eq_zero_iff_zero.mpr (show g - b = 0 by omega)]
    decide
  · rw [ohome _ _ c1, ohome _ _ c2,
      Int.sign_eq_one_iff_pos.mpr (show 0 < h - a by omega),
      Int.sign_eq_one_iff_pos.mpr (show 0 < g - b by omega)]
    decide

/-- C2: for every prediction and integer-scored result, `calculate_points`
returns exactly `POINTS_EXACT_SCORE` when both predicted scores equal the
actual scores (with no further bonuses on top); otherwise it returns the
independent additive sum of `POINTS_CORRECT_RESULT` when the outcome
classes (the sign of home − away) agree plus `POINTS_GOAL_DIFFERENCE` when
the score differences agree, so a prediction differing in both outcome and
difference scores 0. -/
theorem c2_calculate_points_formula (pred : Prediction) (ah aa : Int) :
    calculate_points pred
        (some { home_score := some (RawScore.num ah),
                away_score := some (RawScore.num aa) })
      = some (if pred.home_score.getD 0 = ah ∧ pred.away_score.getD 0 = aa then
          POINTS_EXACT_SCORE
        else
          (if Int.sign (pred.home_score.getD 0 - pred.away_score.getD 0)
              = Int.sign (ah - aa) then POINTS_CORRECT_RESULT else 0)
          + (if pred.home_score.getD 0 - pred.away_score.getD 0 = ah - aa then
              POINTS_GOAL_DIFFERENCE else 0)) := by
  show (if pred.home_score.getD 0 = ah ∧ pred.away_score.getD 0 = aa then
      some POINTS_EXACT_SCORE
    else
      some ((if outcomeOf (pred.home_score.getD 0) (pred.away_score.getD 0)
            = outcomeOf ah aa then POINTS_CORRECT_RESULT else 0)
        + (if pred.home_score.getD 0 - pred.away_score.getD 0 = ah - aa then
            POINTS_GOAL_DIFFERENCE else 0))) = _
  by_cases hex : pred.home_score.getD 0 = ah ∧ pred.away_score.getD 0 = aa
  · rw [if_pos hex, if_pos hex]
  · rw [if_neg hex, if_neg hex]
    have hsg := outcomeOf_eq_iff_sign (pred.home_score.getD 0)
      (pred.away_score.getD 0) ah aa
    by_cases ho : outcomeOf (pred.home_score.getD 0) (pred.away_score.getD 0)
        = outcomeOf ah aa
    · rw [if_pos ho, if_pos (hsg.mp ho)]
    · rw [if_neg ho, if_neg (fun hs => ho (hsg.mpr hs))]

/-! ## C4 -/

/-- C4: the listed degenerate result cases (absent result, missing score
keys, NaN scores, unparseable scores) all yield 0 points as claimed, but the
function is not total: a float-infinite score makes `int(float(...))` raise
`OverflowError`, which the `except (ValueError, TypeError)` handler does not
catch, so `calculate_points` raises (embedded as `none`) instead of
returning an integer. -/
theorem c4_degenerate_zero_but_inf_raises :
    (∀ pred : Prediction, calculate_points pred none = some 0) ∧
      (∀ (pred : Prediction) (aw : Option RawScore),
        calculate_points pred (some { home_score := none, away_score := aw })
          = some 0) ∧
      (∀ (pred : Prediction) (hs : Option RawScore),
        calculate_points pred (some { home_score := hs, away_score := none })
          = some 0) ∧
      (∀ (pred : Prediction) (aw : RawScore),
        calculate_points pred
          (some { home_score := some RawScore.nan, away_score := some aw })
          = some 0) ∧
      (∀ (pred : Prediction) (hs : RawScore),
        calculate_points pred
          (some { home_score := some hs, away_score := some RawScore.nan })
          = some 0) ∧
      (∀ (pred : Prediction) (aw : RawScore),
        calculate_points pred
          (some { home_score := some RawScore.bad, away_score := some aw })
          = some 0) ∧
      calculate_points { home_score := some 0, away_score := some 0 }
        (some { home_score := some RawScore.inf,
                away_score := some (RawScore.num 0) })
        = none := by
  refine ⟨fun pred => rfl, fun pred aw => ?_, fun pred hs => ?_,
    fun pred aw => ?_, fun pred hs => ?_, fun pred aw => ?_, rfl⟩
  · cases aw <;> rfl
  · cases hs with
    | none => rfl
    | some s => cases s <;> rfl
  · cases aw <;> rfl
  · cases hs <;> rfl
  · cases aw <;> rfl

/-! ## C6 -/

/-- C6 counterexample: calling `save_manual_adjustment` with an empty
`reason` succeeds and changes the stored adjustment log, refuting the claim
that the engine rejects such a call before any store write. -/
theorem c6_empty_reason_accepted_cex :
    (save_manual_adjustment wSt "alice" 5 "" "admin" "t").2 = true ∧
      (save_manual_adjustment wSt "alice" 5 "" "admin" "t").1.adjustments
        ≠ wSt.adjustments := by
  refine ⟨rfl, ?_⟩
  decide

/-- C6 (amended): `save_manual_adjustment` itself performs no validation:
even with an empty `reason` the adjustment is appended to the log and the
call reports success; rejecting an empty reason is left to the admin UI
caller. -/
theorem c6_save_appends_without_validation (st : Store) (username : String)
    (points_change : Int) (admin_user timestamp : String) :
    save_manual_adjustment st username points_change "" admin_user timestamp
      = ({ st with adjustments := st.adjustments ++
            [{ username := username, points_change := points_change,
               reason := "", admin_user := admin_user,
               timestamp := timestamp }] }, true) := rfl

/-! ## C8 -/

/-- C8 (amended): every leaderboard entry's `average_points` equals
`total_points / max(weeks_played, 1)` rounded to two decimal places (the
Python `round(x, 2)` of the source); in particular a user with
`weeks_played = 0` gets exactly their raw total and no division-by-zero
occurs. -/
theorem c8_average_points_rounded (st : Store) (lb : List LBEntry)
    (h : get_leaderboard st = some lb) :
    ∀ e ∈ lb,
      e.average_points
        = round2 ((e.total_points : ℚ) / ((max e.weeks_played 1 : Nat) : ℚ)) ∧
      (e.weeks_played = 0 → e.average_points = (e.total_points : ℚ)) := by
  intro e he
  unfold get_leaderboard at h
  cases hm : calculate_user_scores st with
  | none => rw [hm] at h; cases h
  | some scores =>
    rw [hm] at h
    cases h
    have he2 := (sortDesc_perm _).subset he
    obtain ⟨p, hp, rfl⟩ := List.mem_map.mp he2
    refine ⟨rfl, ?_⟩
    intro h0
    have h0b : p.2.weeks_played = 0 := h0
    show round2 ((p.2.total_points : ℚ) / ((max p.2.weeks_played 1 : Nat) : ℚ))
      = ((p.2.total_points : Int) : ℚ)
    rw [h0b]
    have h1 : ((p.2.total_points : Int) : ℚ) / ((max 0 1 : Nat) : ℚ)
        = ((p.2.total_points : Int) : ℚ) := by norm_num
    rw [h1, round2_intCast]

theorem round2_third : round2 ((1 : ℚ) / 3) = 33 / 100 := by
  unfold round2 roundHalfEven
  have h1 : ((1 : ℚ) / 3 * 100) = (((100 : Int)) : ℚ) / (((3 : Nat)) : ℚ) := by
    norm_num
  rw [h1, Rat.floor_intCast_div_natCast,
    show (100 : Int) / ((3 : Nat) : Int) = 33 by decide]
  norm_num

/-- Store refuting C8's exact-quotient reading: one user who earns 1 point
over 3 completed weeks, so the exact average is 1/3 while the stored value
is the rounded 0.33. -/
def c8St : Store :=
  { users := [("alice", { display_name := "Alice" })]
    current_week := 4
    results := fun w => if w = 1 ∨ w = 2 ∨ w = 3 then
        some [{ home_score := some (RawScore.num 1),
                away_score := some (RawScore.num 0) }]
      else none
    predictions := fun w =>
      if w = 1 then
        [("alice", PredEntry.plain [{ home_score := some 2, away_score := some 0 }])]
      else if w = 2 ∨ w = 3 then
        [("alice", PredEntry.plain [{ home_score := some 0, away_score := some 1 }])]
      else []
    adjustments := [] }

/-- The score record `calculate_user_scores` produces for `"alice"` on `c8St`. -/
def c8Score : UserScore :=
  { display_name := "Alice", total_points := 1, weeks_played := 3,
    weekly_breakdown := [(1, 1), (2, 0), (3, 0)], manual_adjustments := 0 }

/-- The leaderboard entry `get_leaderboard` produces for `"alice"` on `c8St`. -/
def c8Entry : LBEntry :=
  { username := "alice", display_name := "Alice", total_points := 1,
    weeks_played := 3, average_points := 33 / 100, current_week_points := 0,
    weekly_breakdown := [(1, 1), (2, 0), (3, 0)], manual_adjustments := 0 }

theorem mkEntry_c8_alice : mkEntry c8St.current_week ("alice", c8Score) = c8Entry := by
  have havg : round2 (((1 : Int) : ℚ) / ((max 3 1 : Nat) : ℚ)) = 33 / 100 := by
    have h1 : (((1 : Int) : ℚ) / ((max 3 1 : Nat) : ℚ)) = (1 : ℚ) / 3 := by
      norm_num
    rw [h1, round2_third]
  simp only [mkEntry, c8Score, c8Entry, c8St]
  rw [havg]
  simp [List.lookup]

theorem get_leaderboard_c8St : get_leaderboard c8St = some [c8Entry] := by
  have h1 : calculate_user_scores c8St = some [("alice", c8Score)] := by rfl
  unfold get_leaderboard
  rw [h1]
  show some (sortDesc (unsortedLeaderboard c8St.current_week [("alice", c8Score)]))
    = some [c8Entry]
  rw [show unsortedLeaderboard c8St.current_week [("alice", c8Score)] = [c8Entry] by
    simp [unsortedLeaderboard, mkEntry_c8_alice]]
  rfl

/-- C8 counterexample: on `c8St` the stored `average_points` is the rounded
33/100, which differs from the exact quotient 1/3 the claim asserts. -/
theorem c8_rounding_cex :
    get_leaderboard c8St = some [c8Entry] ∧
      c8Entry.average_points
        ≠ (c8Entry.total_points : ℚ) / ((max c8Entry.weeks_played 1 : Nat) : ℚ) := by
  refine ⟨get_leaderboard_c8St, ?_⟩
  show (33 / 100 : ℚ) ≠ ((1 : Int) : ℚ) / ((max 3 1 : Nat) : ℚ)
  norm_num

/-- C8 witness: the amended theorem applied at `wSt`. -/
theorem c8_average_points_rounded_witness :
    get_leaderboard wSt = some [wEntry] ∧
      wEntry.average_points
        = round2 ((wEntry.total_points : ℚ)
            / ((max wEntry.weeks_played 1 : Nat) : ℚ)) :=
  ⟨get_leaderboard_wSt,
    (c8_average_points_rounded wSt [wEntry] get_leaderboard_wSt wEntry
      (by simp)).1⟩

/-! ## C3 -/

theorem bind_userPredsOf_shape (k u : String) (ps : List Prediction) (t : String)
    (pre post : List (String × PredEntry)) :
    (List.lookup k (pre ++ (u, PredEntry.plain ps) :: post)).bind userPredsOf
      = (List.lookup k (pre ++ (u, PredEntry.record ps t) :: post)).bind userPredsOf := by
  induction pre with
  | nil =>
    simp only [List.nil_append, List.lookup]
    cases hk : (k == u) <;> simp [userPredsOf]
  | cons a pre ih =>
    rcases a with ⟨k2, v⟩
    simp only [List.cons_append, List.lookup]
    cases hk : (k == k2) <;> simp [ih]

theorem stepUser_shape_congr (st1 st2 : Store) (wk : Nat) (p : String × UserScore)
    (hres : st2.results = st1.results)
    (hlen : (st2.predictions wk).length = (st1.predictions wk).length)
    (hband : (List.lookup p.1 (st2.predictions wk)).bind userPredsOf
      = (List.lookup p.1 (st1.predictions wk)).bind userPredsOf) :
    stepUser st2 wk p = stepUser st1 wk p := by
  simp only [stepUser, hres]
  cases st1.results wk with
  | none => rfl
  | some rs =>
    by_cases hr : rs.length = 0
    · simp [hr]
    · rw [hlen]
      by_cases hp : (st1.predictions wk).length = 0
      · simp [hr, hp]
      · simp only [hr, hp, if_neg, if_false]
        have conv1 : ∀ l : List (String × PredEntry),
            (match List.lookup p.1 l with
              | none => some p
              | some entry =>
                match userPredsOf entry with
                | none => some p
                | some ups =>
                  match weekPoints ups rs with
                  | none => none
                  | some wp =>
                    some (p.1, { p.2 with
                      total_points := p.2.total_points + wp,
                      weeks_played := p.2.weeks_played + 1,
                      weekly_breakdown := p.2.weekly_breakdown ++ [(wk, wp)] }))
            = (match (List.lookup p.1 l).bind userPredsOf with
                | none => some p
                | some ups =>
                  match weekPoints ups rs with
                  | none => none
                  | some wp =>
                    some (p.1, { p.2 with
                      total_points := p.2.total_points + wp,
                      weeks_played := p.2.weeks_played + 1,
                      weekly_breakdown := p.2.weekly_breakdown ++ [(wk, wp)] })) := by
          intro l
          cases List.lookup p.1 l with
          | none => rfl
          | some entry => cases userPredsOf entry <;> rfl
        rw [conv1, conv1, hband]

/-- C3: per-user prediction entries in either historical storage shape score
identically: two stores identical except that one maps `u` in week `w` to
the bare list `ps` and the other maps `u` to the record shape carrying the
same list (and any timestamp) produce equal `calculate_user_scores`
output. -/
theorem c3_prediction_shapes_equivalent (st1 st2 : Store) (w : Nat) (u : String)
    (ps : List Prediction) (t : String) (pre post : List (String × PredEntry))
    (husers : st2.users = st1.users) (hcw : st2.current_week = st1.current_week)
    (hres : st2.results = st1.results) (hadj : st2.adjustments = st1.adjustments)
    (h1 : st1.predictions w = pre ++ (u, PredEntry.plain ps) :: post)
    (h2 : st2.predictions w = pre ++ (u, PredEntry.record ps t) :: post)
    (hother : ∀ w2, w2 ≠ w → st2.predictions w2 = st1.predictions w2) :
    calculate_user_scores st2 = calculate_user_scores st1 := by
  have hstep : ∀ (wk : Nat) (p : String × UserScore),
      stepUser st2 wk p = stepUser st1 wk p := by
    intro wk p
    by_cases hwk : wk = w
    · subst hwk
      refine stepUser_shape_congr st1 st2 wk p hres ?_ ?_
      · rw [h1, h2]; simp
      · rw [h1, h2, (bind_userPredsOf_shape p.1 u ps t pre post).symm]
    · have he := hother wk hwk
      simp only [stepUser, hres, he]
  have hpw : ∀ (sc : List (String × UserScore)) (wk : Nat),
      processWeek st2 sc wk = processWeek st1 sc wk := by
    intro sc wk
    rw [processWeek_eq_mapM, processWeek_eq_mapM]
    exact optMapM_congr _ _ (fun p => hstep wk p) sc
  unfold calculate_user_scores
  rw [husers, hcw, hadj,
    optFoldl_congr (processWeek st2) (processWeek st1) hpw
      (initUserScores st1.users) (weekRange st1.current_week)]

/-- C3 witness stores: identical except for the storage shape of alice's
week-1 predictions. -/
def c3St1 : Store :=
  { users := [("alice", { display_name := "Alice" })]
    current_week := 2
    results := fun w => if w = 1 then
        some [{ home_score := some (RawScore.num 1),
                away_score := some (RawScore.num 0) }]
      else none
    predictions := fun w => if w = 1 then
        [("alice", PredEntry.plain [{ home_score := some 1, away_score := some 0 }])]
      else []
    adjustments := [] }

/-- The record-shaped variant of `c3St1`. -/
def c3St2 : Store :=
  { users := c3St1.users
    current_week := c3St1.current_week
    results := c3St1.results
    predictions := fun w => if w = 1 then
        [("alice", PredEntry.record
          [{ home_score := some 1, away_score := some 0 }] "2024-01-01")]
      else []
    adjustments := c3St1.adjustments }

/-- C3 witness: the theorem applied at the concrete store pair. -/
theorem c3_prediction_shapes_equivalent_witness :
    calculate_user_scores c3St2 = calculate_user_scores c3St1 ∧
      (calculate_user_scores c3St1).isSome = true := by
  refine ⟨c3_prediction_shapes_equivalent c3St1 c3St2 1 "alice"
    [{ home_score := some 1, away_score := some 0 }] "2024-01-01" [] []
    rfl rfl rfl rfl rfl rfl ?_, by rfl⟩
  intro w2 hw2
  show (if w2 = 1 then _ else []) = (if w2 = 1 then _ else [])
  rw [if_neg hw2, if_neg hw2]
